import Mathlib

/-
Verification of the Concordium liquid-staking contract
(src/contract/src/lib.rs of amdonatusprince/staking-dApp).

The contract state, entrypoints and helper functions are embedded as
executable Lean definitions.  Machine integers (u64, u128) are modelled as
Nat with the source's saturating and wrapping operations written out
explicitly (release-mode Rust semantics for the unchecked +, -, * on u64).
External effects are modelled as oracle inputs:
  - the block times, the contract's own address, the instance owner and the
    CIS-2 balance query results live in an Env record;
  - the ed25519 signature-verification verdict of check_account_signature is
    a Bool input (the hash construction itself is byte-level I/O);
  - the byte-level from_bytes parse of the permit payload is modelled by
    storing the parse result (an optional UnstakeParams amount) in the
    message.
A call is the unit of atomicity on the hosting chain: an error return
discards every pending mutation and every pending log event, which the
Except-valued results capture (commitState / committedEvents).
-/

def TWO64 : Nat := 18446744073709551616

def U64MAX : Nat := 18446744073709551615

def U128MAX : Nat := 340282366920938463463374607431768211455

/-- u64 saturating addition (saturating_add in the source). -/
def satAdd64 (a b : Nat) : Nat := if a + b ≤ U64MAX then a + b else U64MAX

/-- u64 wrapping addition (release-mode + on u64 / TokenAmountU64). -/
def wadd64 (a b : Nat) : Nat := (a + b) % TWO64

/-- u64 wrapping subtraction (release-mode - on u64 / TokenAmountU64);
arguments are u64 values, so b ≤ TWO64. -/
def wsub64 (a b : Nat) : Nat := (a + (TWO64 - b)) % TWO64

/-- u64 wrapping multiplication (release-mode * on u64). -/
def wmul64 (a b : Nat) : Nat := (a * b) % TWO64

/-- u128 saturating multiplication (saturating_mul in the source). -/
def satMul128 (a b : Nat) : Nat := if a * b ≤ U128MAX then a * b else U128MAX

/-- The error enum of the contract (lib.rs lines 254-349). -/
inductive Error where
  | ParseParams
  | UnAuthorized
  | InvalidStakeAmount
  | NoStakeFound
  | OnlyAccount
  | OnlyAdmin
  | InvokeContractError
  | ParseResult
  | InvalidResponse
  | LogFull
  | LogMalformed
  | FailedUpgradeMissingModule
  | FailedUpgradeMissingContract
  | FailedUpgradeUnsupportedModuleVersion
  | ContractPaused
  | InsufficientFunds
  | NotTokenContract
  | MissingAccount
  | MalformedData
  | WrongSignature
  | NonceMismatch
  | WrongContract
  | WrongEntryPoint
  | Expired
  | InvalidUnstakeAmount
  | UnbondingPeriodNotMet
  | AlreadySlashed
  | InsufficientRewardsPool
  | NoRewardsAvailable
deriving DecidableEq

/-- Concordium addresses: either an account or a contract instance
(the 32-byte account ids and contract index pairs are abstracted to Nat). -/
inductive Addr where
  | acct (a : Nat)
  | contract (c : Nat)
deriving DecidableEq

/-- One entry of the per-account unbonding queue (struct UnbondingInfo). -/
structure UnbondingInfo where
  amount : Nat
  unlock_time : Nat
deriving DecidableEq

/-- Per-account stake record (struct StakeInfo). -/
structure StakeInfo where
  amount : Nat
  timestamp : Nat
  unbonding : List UnbondingInfo
  slashed : Bool
  pending_rewards : Nat
deriving DecidableEq

/-- Logged events of the contract (enum Event). -/
inductive Event where
  | Staked (user stake_amount staked_timestamp : Nat)
  | Unstaked (user unstaked_amount unix_timestamp rewards_earned : Nat)
  | Claimed (user rewards_claimed claim_timestamp : Nat)
  | AprUpdated (new_apr update_timestamp : Nat)
  | Nonce (account nonce : Nat)
deriving DecidableEq

/-- An outbound CIS-2 transfer performed through transfer_euroe_token. -/
structure TransferRec where
  src : Addr
  dst : Addr
  amount : Nat
deriving DecidableEq

/-- The signed permit message (struct PermitMessage).  The raw payload bytes
are abstracted to their from_bytes parse result: payload = some a means the
bytes deserialize to UnstakeParams with amount a, none means parsing fails. -/
structure PermitMessage where
  contract_address : Nat
  nonce : Nat
  timestamp : Nat
  entry_point : String
  payload : Option Nat
deriving DecidableEq

/-- Association-list model of the StateMap of staker addresses to records.
Lookup finds the first binding; remove drops every binding of the key;
insert replaces the bindings of the key. -/
def mapLookup : List (Nat × StakeInfo) → Nat → Option StakeInfo
  | [], _ => none
  | (k2, v) :: tl, k => if k2 = k then some v else mapLookup tl k

/-- Remove every binding of a key from the stake map. -/
def mapRemove : List (Nat × StakeInfo) → Nat → List (Nat × StakeInfo)
  | [], _ => []
  | (k2, v) :: tl, k => if k2 = k then mapRemove tl k else (k2, v) :: mapRemove tl k

/-- Insert or replace the binding of a key in the stake map. -/
def mapInsert (m : List (Nat × StakeInfo)) (k : Nat) (v : StakeInfo) :
    List (Nat × StakeInfo) :=
  (k, v) :: mapRemove m k

/-- The contract state (struct State).  The nonces registry is modelled as a
total function defaulting to 0, matching get_user_nonce and the
or_insert-with-0 behaviour of the permit entrypoint. -/
structure State where
  paused : Bool
  admin : Nat
  total_staked : Nat
  apr : Nat
  stakes : List (Nat × StakeInfo)
  token_address : Nat
  total_participants : Nat
  nonces : Nat → Nat
  unbonding_period : Nat
  slashing_rate : Nat
  rewards_pool : Nat
  total_rewards_paid : Nat

/-- Oracle inputs of one call: block time in seconds (get_current_timestamp),
the slot time compared against the permit expiry, the contract's own
address, the instance owner (ctx.owner(), distinct from state.admin), and
the balances reported by the external CIS-2 token contract. -/
structure Env where
  now : Nat
  slot_time : Nat
  self_addr : Nat
  owner : Nat
  balanceOf : Addr → Nat

/-- Result of one successful call: the committed state, the outbound token
transfers and the logged events, in call order. -/
structure Out where
  st : State
  transfers : List TransferRec
  events : List Event

/-- The state visible after a call under the chain's all-or-nothing call
semantics: an error return discards every pending mutation. -/
def commitState (st : State) (r : Except Error Out) : State :=
  match r with
  | .ok o => o.st
  | .error _ => st

/-- The events visible after a call: an error return discards pending logs. -/
def committedEvents (r : Except Error Out) : List Event :=
  match r with
  | .ok o => o.events
  | .error _ => []

/-- INITIAL_APR constant. -/
def INITIAL_APR : Nat := 139

/-- Denominator of the reward formula: 365 * 24 * 60 * 60 * 10000. -/
def rewardDenom : Nat := 365 * 24 * 60 * 60 * 10000

/-- contract_init: the fresh state. -/
def contract_init (admin token_address unbonding_period slashing_rate : Nat) :
    State :=
  { paused := false
    admin := admin
    total_staked := 0
    apr := INITIAL_APR
    stakes := []
    token_address := token_address
    total_participants := 0
    nonces := fun _ => 0
    unbonding_period := unbonding_period
    slashing_rate := slashing_rate
    rewards_pool := 0
    total_rewards_paid := 0 }

/-- only_account helper: rejects contract senders. -/
def only_account : Addr → Except Error Nat
  | .contract _ => .error .OnlyAccount
  | .acct a => .ok a

/-- calculate_reward (lib.rs lines 1263-1286): saturating u64 subtraction of
timestamps, u128 saturating multiplies, saturating (plain, denominator is
nonzero) division, and a try_into-to-u64 that falls back to 0 on overflow. -/
def calculate_reward (staked_amount last_timestamp current_timestamp apr : Nat) :
    Nat :=
  if staked_amount = 0 then 0
  else
    if satMul128 (satMul128 staked_amount apr) (current_timestamp - last_timestamp)
          / rewardDenom ≤ U64MAX then
      satMul128 (satMul128 staked_amount apr) (current_timestamp - last_timestamp)
        / rewardDenom
    else 0

/-- transfer_euroe_token: optional strict-greater balance pre-check of the
source address against the external token contract, then the transfer call.
The external invocation itself is assumed to answer (its failures are
environmental); the balance oracle lives in Env. -/
def transfer_euroe_token (env : Env) (src dst : Addr) (amount : Nat)
    (before_transfer_check : Bool) : Except Error TransferRec :=
  if before_transfer_check then
    if amount < env.balanceOf src then .ok ⟨src, dst, amount⟩
    else .error .InsufficientFunds
  else .ok ⟨src, dst, amount⟩

/-- unstake_helper (lib.rs lines 1122-1185), the permit-routed unstake: no
slashed check, computes the reward on the withdrawn amount, removes the
whole record (and a participant) on full withdrawal, and transfers
amount + reward with a balance pre-check. -/
def unstake_helper (env : Env) (st : State) (sender_address amount : Nat) :
    Except Error Out :=
  if st.paused then .error .ContractPaused
  else
    match mapLookup st.stakes sender_address with
    | none => .error .NoStakeFound
    | some s =>
      if amount ≤ s.amount then
        match transfer_euroe_token env (.contract env.self_addr)
            (.acct sender_address)
            (wadd64 amount (calculate_reward amount s.timestamp env.now st.apr))
            true with
        | .error e => .error e
        | .ok tr =>
          .ok ⟨if amount = s.amount then
                { st with
                  stakes := mapRemove st.stakes sender_address
                  total_participants := wsub64 st.total_participants 1
                  total_staked := wsub64 st.total_staked amount }
              else
                { st with
                  stakes := mapInsert st.stakes sender_address
                    { amount := s.amount - amount
                      timestamp := s.timestamp
                      unbonding := s.unbonding
                      slashed := s.slashed
                      pending_rewards := s.pending_rewards }
                  total_staked := wsub64 st.total_staked amount },
              [tr],
              [.Unstaked sender_address amount env.now
                 (calculate_reward amount s.timestamp env.now st.apr)]⟩
      else .error .InvalidUnstakeAmount

/-- claim_rewards_helper (lib.rs lines 1187-1247): checkpoints the accrual,
requires a positive total within the rewards pool, zeroes pending rewards,
moves the checkpoint, adjusts the pool and pays out with a balance
pre-check.  (The source guards the transfer with total > 0, which is
always true on this path.) -/
def claim_rewards_helper (env : Env) (st : State) (sender_address : Nat) :
    Except Error Out :=
  if st.paused then .error .ContractPaused
  else
    match mapLookup st.stakes sender_address with
    | none => .error .NoStakeFound
    | some s =>
      if s.slashed then .error .AlreadySlashed
      else
        if 0 < satAdd64 s.pending_rewards
            (calculate_reward s.amount s.timestamp env.now st.apr) then
          if satAdd64 s.pending_rewards
              (calculate_reward s.amount s.timestamp env.now st.apr)
              ≤ st.rewards_pool then
            match transfer_euroe_token env (.contract env.self_addr)
                (.acct sender_address)
                (satAdd64 s.pending_rewards
                  (calculate_reward s.amount s.timestamp env.now st.apr))
                true with
            | .error e => .error e
            | .ok tr =>
              .ok ⟨{ st with
                     stakes := mapInsert st.stakes sender_address
                       { s with pending_rewards := 0, timestamp := env.now }
                     rewards_pool := st.rewards_pool -
                       satAdd64 s.pending_rewards
                         (calculate_reward s.amount s.timestamp env.now st.apr)
                     total_rewards_paid := satAdd64 st.total_rewards_paid
                       (satAdd64 s.pending_rewards
                         (calculate_reward s.amount s.timestamp env.now st.apr)) },
                  [tr],
                  [.Claimed sender_address
                     (satAdd64 s.pending_rewards
                       (calculate_reward s.amount s.timestamp env.now st.apr))
                     env.now]⟩
          else .error .InsufficientRewardsPool
        else .error .NoRewardsAvailable

/-- contract_claim_rewards entrypoint: account senders only, then the helper. -/
def contract_claim_rewards (env : Env) (st : State) (sender : Addr) :
    Except Error Out :=
  match only_account sender with
  | .error e => .error e
  | .ok a => claim_rewards_helper env st a

/-- contract_unstake (lib.rs lines 707-746), the direct queued unstake:
blocks slashed records, appends an unbonding entry maturing at
now + unbonding_period, moves the amount out of the principal, and moves
no tokens. -/
def contract_unstake (env : Env) (st : State) (sender : Addr) (amount : Nat) :
    Except Error Out :=
  match only_account sender with
  | .error e => .error e
  | .ok sender_address =>
    if st.paused then .error .ContractPaused
    else
      match mapLookup st.stakes sender_address with
      | none => .error .NoStakeFound
      | some s =>
        if s.slashed then .error .AlreadySlashed
        else
          if amount ≤ s.amount then
            .ok ⟨{ st with
                   stakes := mapInsert st.stakes sender_address
                     { s with
                       amount := s.amount - amount
                       unbonding := s.unbonding ++
                         [⟨amount, wadd64 env.now st.unbonding_period⟩] }
                   total_staked := wsub64 st.total_staked amount },
                [],
                [.Unstaked sender_address amount env.now 0]⟩
          else .error .InvalidUnstakeAmount

/-- contract_stake (lib.rs lines 630-696), the CIS-2 deposit hook: sender
must be the token contract, the depositor an account; checkpoints pending
rewards of a nonzero principal, then adds the amount (saturating) and
advances the checkpoint. -/
def contract_stake (env : Env) (st : State) (sender frm : Addr) (amount : Nat) :
    Except Error Out :=
  if sender = Addr.contract st.token_address then
    match only_account frm with
    | .error e => .error e
    | .ok sender_address =>
      if st.paused then .error .ContractPaused
      else
        if 0 < amount then
          .ok ⟨{ st with
                 stakes := mapInsert st.stakes sender_address
                   (stakeUpd env st
                     ((mapLookup st.stakes sender_address).getD
                       ⟨0, env.now, [], false, 0⟩) amount)
                 total_staked := satAdd64 st.total_staked amount
                 total_participants :=
                   if mapLookup st.stakes sender_address = none then
                     satAdd64 st.total_participants 1
                   else st.total_participants },
              [],
              [.Staked sender_address amount env.now]⟩
        else .error .InvalidStakeAmount
  else .error .NotTokenContract
where
  /-- The record update of contract_stake: checkpoint then add. -/
  stakeUpd (env : Env) (st : State) (s0 : StakeInfo) (amount : Nat) : StakeInfo :=
    let s1 :=
      if 0 < s0.amount then
        { s0 with
          pending_rewards :=
            satAdd64 s0.pending_rewards
              (calculate_reward s0.amount s0.timestamp env.now st.apr) }
      else s0
    { s1 with amount := satAdd64 s0.amount amount, timestamp := env.now }

/-- bumpNonce: the permit entrypoint's or_insert(0) followed by += 1 on the
signer's nonce, performed before any validation. -/
def bumpNonce (st : State) (signer : Nat) : State :=
  { st with nonces := fun a => if a = signer then st.nonces signer + 1 else st.nonces a }

/-- contract_permit (lib.rs lines 542-619): pause check, nonce bump, nonce /
contract / expiry / signature checks, then dispatch by entrypoint name to
unstake_helper or claim_rewards_helper, finally the NonceEvent log.
sigOk is the oracle verdict of check_account_signature on the recomputed
message hash. -/
def contract_permit (env : Env) (sigOk : Bool) (st : State) (signer : Nat)
    (msg : PermitMessage) : Except Error Out :=
  if st.paused then .error .ContractPaused
  else
    if msg.nonce = st.nonces signer then
      if msg.contract_address = env.self_addr then
        if env.slot_time < msg.timestamp then
          if sigOk then
            if msg.entry_point = "unstake" then
              match msg.payload with
              | none => .error .ParseParams
              | some amount =>
                match unstake_helper env (bumpNonce st signer) signer amount with
                | .error e => .error e
                | .ok o =>
                  .ok ⟨o.st, o.transfers,
                       o.events ++ [.Nonce signer (st.nonces signer)]⟩
            else
              if msg.entry_point = "claimRewards" then
                match claim_rewards_helper env (bumpNonce st signer) signer with
                | .error e => .error e
                | .ok o =>
                  .ok ⟨o.st, o.transfers,
                       o.events ++ [.Nonce signer (st.nonces signer)]⟩
              else .error .WrongEntryPoint
          else .error .WrongSignature
        else .error .Expired
      else .error .WrongContract
    else .error .NonceMismatch

/-- Sum of the matured unbonding amounts (wrapping u64 accumulation, as in
the += of contract_complete_unstake). -/
def maturedTotal (now : Nat) : List UnbondingInfo → Nat → Nat
  | [], acc => acc
  | u :: tl, acc =>
    maturedTotal now tl (if u.unlock_time ≤ now then wadd64 acc u.amount else acc)

/-- contract_complete_unstake (lib.rs lines 1367-1417, settleMatured):
rejects slashed records up front, drains matured entries, keeps pending
ones, and pays the matured total.  The slashing-deduction branch of the
source is kept verbatim; it is unreachable because of the earlier
AlreadySlashed ensure. -/
def contract_complete_unstake (env : Env) (st : State) (sender : Addr) :
    Except Error Out :=
  match only_account sender with
  | .error e => .error e
  | .ok a =>
    match mapLookup st.stakes a with
    | none => .error .NoStakeFound
    | some s =>
      if s.slashed then .error .AlreadySlashed
      else
        if 0 < maturedTotal env.now s.unbonding 0 then
          match transfer_euroe_token env (.contract env.self_addr) (.acct a)
              (if s.slashed then
                wsub64 (maturedTotal env.now s.unbonding 0)
                  (wmul64 (maturedTotal env.now s.unbonding 0) st.slashing_rate
                    / 10000)
              else maturedTotal env.now s.unbonding 0)
              true with
          | .error e => .error e
          | .ok tr =>
            .ok ⟨{ st with
                   stakes := mapInsert st.stakes a
                     { s with unbonding :=
                         s.unbonding.filter (fun u => decide (env.now < u.unlock_time)) } },
                 [tr], []⟩
        else .error .UnbondingPeriodNotMet

/-- contract_slash (lib.rs lines 1427-1445): admin-only, flags the record. -/
def contract_slash (st : State) (sender : Addr) (staker : Nat) :
    Except Error Out :=
  if sender = Addr.acct st.admin then
    match mapLookup st.stakes staker with
    | none => .error .NoStakeFound
    | some s =>
      if s.slashed then .error .AlreadySlashed
      else
        .ok ⟨{ st with stakes := mapInsert st.stakes staker { s with slashed := true } },
             [], []⟩
  else .error .OnlyAdmin

/-- contract_fund_rewards (lib.rs lines 1331-1357): admin-only, pulls the
amount from the admin with a balance pre-check, then grows the pool. -/
def contract_fund_rewards (env : Env) (st : State) (sender : Addr) (amount : Nat) :
    Except Error Out :=
  if sender = Addr.acct st.admin then
    match transfer_euroe_token env (.acct st.admin) (.contract env.self_addr)
        amount true with
    | .error e => .error e
    | .ok tr =>
      .ok ⟨{ st with rewards_pool := wadd64 st.rewards_pool amount }, [tr], []⟩
  else .error .OnlyAdmin

/-- contract_set_paused: owner-only pause switch. -/
def contract_set_paused (env : Env) (st : State) (sender : Addr) (p : Bool) :
    Except Error Out :=
  if sender = Addr.acct env.owner then .ok ⟨{ st with paused := p }, [], []⟩
  else .error .UnAuthorized

/-- update_apr: owner-only APR update. -/
def update_apr (env : Env) (st : State) (sender : Addr) (new_apr : Nat) :
    Except Error Out :=
  if sender = Addr.acct env.owner then
    .ok ⟨{ st with apr := new_apr }, [], [.AprUpdated new_apr env.now]⟩
  else .error .UnAuthorized

/-- The state-mutating operations of the contract, with their call inputs. -/
inductive Op where
  | stake (sender frm : Addr) (amount : Nat)
  | unstake (sender : Addr) (amount : Nat)
  | permit (signer : Nat) (msg : PermitMessage) (sigOk : Bool)
  | claimRewards (sender : Addr)
  | completeUnstake (sender : Addr)
  | slash (sender : Addr) (staker : Nat)
  | fundRewards (sender : Addr) (amount : Nat)
  | setPaused (sender : Addr) (p : Bool)
  | updateApr (sender : Addr) (a : Nat)

/-- Dispatch one operation. -/
def applyOp (env : Env) (op : Op) (st : State) : Except Error Out :=
  match op with
  | .stake sender frm amount => contract_stake env st sender frm amount
  | .unstake sender amount => contract_unstake env st sender amount
  | .permit signer msg sigOk => contract_permit env sigOk st signer msg
  | .claimRewards sender => contract_claim_rewards env st sender
  | .completeUnstake sender => contract_complete_unstake env st sender
  | .slash sender staker => contract_slash st sender staker
  | .fundRewards sender amount => contract_fund_rewards env st sender amount
  | .setPaused sender p => contract_set_paused env st sender p
  | .updateApr sender a => update_apr env st sender a

/-- Sum of the principal (amount) fields over all stake records. -/
def sumAmounts : List (Nat × StakeInfo) → Nat
  | [] => 0
  | p :: tl => p.2.amount + sumAmounts tl

/-- The stake map binds each key at most once. -/
def keysNodup (m : List (Nat × StakeInfo)) : Prop := (m.map Prod.fst).Nodup

/-- States reachable from a freshly initialized contract by any sequence of
successful operations, under arbitrary per-call environments. -/
inductive Reachable : State → Prop where
  | init (admin token_address unbonding_period slashing_rate : Nat) :
      Reachable (contract_init admin token_address unbonding_period slashing_rate)
  | step {st : State} {env : Env} {op : Op} {o : Out} :
      Reachable st → applyOp env op st = .ok o → Reachable o.st

/-- No-saturation side condition: a deposit never saturates the 64-bit
running total of staked principal. -/
def noSatStake (op : Op) (st : State) : Prop :=
  match op with
  | .stake _ _ amount => sumAmounts st.stakes + amount ≤ U64MAX
  | _ => True

/-- Reachability restricted to traces on which no deposit saturates the
64-bit total. -/
inductive ReachableNS : State → Prop where
  | init (admin token_address unbonding_period slashing_rate : Nat) :
      ReachableNS (contract_init admin token_address unbonding_period slashing_rate)
  | step {st : State} {env : Env} {op : Op} {o : Out} :
      ReachableNS st → noSatStake op st → applyOp env op st = .ok o →
      ReachableNS o.st

/-- The C4 invariant: the running total matches the sum of principals, the
sum fits in u64, and the stake map is key-unique. -/
def StakedInv (st : State) : Prop :=
  st.total_staked = sumAmounts st.stakes ∧
  sumAmounts st.stakes ≤ U64MAX ∧
  keysNodup st.stakes

/-- A concrete call environment: block second 'now', slot time 50, contract
address 9, owner account 0, every balance query answering 10^9. -/
def mkEnv (now : Nat) : Env :=
  { now := now, slot_time := 50, self_addr := 9, owner := 0,
    balanceOf := fun _ => 1000000000 }

/-- The default test environment at block second 0. -/
def env0 : Env := mkEnv 0

/-- A concrete unpaused state with the given stake map and running total. -/
def mkState (stakes : List (Nat × StakeInfo)) (total : Nat) : State :=
  { paused := false
    admin := 0
    total_staked := total
    apr := 139
    stakes := stakes
    token_address := 7
    total_participants := stakes.length
    nonces := fun _ => 0
    unbonding_period := 1000
    slashing_rate := 500
    rewards_pool := 0
    total_rewards_paid := 0 }

/-- State for the C1 counterexample: account 1 staked 100 at checkpoint 0. -/
def c1St : State := mkState [(1, ⟨100, 0, [], false, 0⟩)] 100

/-- Valid permit message for the C1 counterexample: unstake 40 for nonce 0. -/
def c1Msg : PermitMessage := ⟨9, 0, 100, "unstake", some 40⟩

/-- State for the C2 counterexample: account 1 is flagged slashed. -/
def c2St : State := mkState [(1, ⟨100, 0, [], true, 5⟩)] 100

/-- State for C3: account 1 slashed, one matured unbonding entry of 1000. -/
def c3St : State := mkState [(1, ⟨0, 0, [⟨1000, 10⟩], true, 0⟩)] 0

/-- Environment for C3: block second 100, past the unlock time 10. -/
def c3Env : Env := mkEnv 100

/-- State after the first maximal deposit of the C4 counterexample trace. -/
def c4St1 : State :=
  { paused := false
    admin := 0
    total_staked := U64MAX
    apr := 139
    stakes := [(1, ⟨U64MAX, 0, [], false, 0⟩)]
    token_address := 7
    total_participants := 1
    nonces := fun _ => 0
    unbonding_period := 10
    slashing_rate := 500
    rewards_pool := 0
    total_rewards_paid := 0 }

/-- State after the second maximal deposit: the saturated running total
(2^64 - 1) undershoots the sum of principals (2 * (2^64 - 1)). -/
def c4St2 : State :=
  { paused := false
    admin := 0
    total_staked := U64MAX
    apr := 139
    stakes := [(2, ⟨U64MAX, 0, [], false, 0⟩), (1, ⟨U64MAX, 0, [], false, 0⟩)]
    token_address := 7
    total_participants := 2
    nonces := fun _ => 0
    unbonding_period := 10
    slashing_rate := 500
    rewards_pool := 0
    total_rewards_paid := 0 }

/-- Full output of the first C4 counterexample step. -/
def c4Out1 : Out := ⟨c4St1, [], [.Staked 1 U64MAX 0]⟩

/-- Full output of the second C4 counterexample step. -/
def c4Out2 : Out := ⟨c4St2, [], [.Staked 2 U64MAX 0]⟩

/-- State for the C10 witness: account 1 with principal 100, two pending
unbonding entries and accrued pending rewards 77. -/
def c10St : State :=
  mkState [(1, ⟨100, 0, [⟨30, 99999⟩, ⟨20, 88888⟩], false, 77⟩)] 100

/-- Permit message for the C10 witness: full unstake of the principal 100. -/
def c10Msg : PermitMessage := ⟨9, 0, 100, "unstake", some 100⟩

/-- Saturating u64 addition is plain addition below the bound. -/
theorem satAdd64_eq {a b : Nat} (h : a + b ≤ U64MAX) : satAdd64 a b = a + b := by
  unfold satAdd64
  exact if_pos h

/-- Wrapping u64 subtraction is plain subtraction when it cannot underflow. -/
theorem wsub64_eq {a b : Nat} (hb : b ≤ a) (ha : a ≤ U64MAX) :
    wsub64 a b = a - b := by
  unfold wsub64 TWO64
  unfold U64MAX at ha
  omega

/-- A key absent from the map looks up to none. -/
theorem mapLookup_none_of_not_mem {m : List (Nat × StakeInfo)} {k : Nat}
    (h : k ∉ m.map Prod.fst) : mapLookup m k = none := by
  induction m with
  | nil => rfl
  | cons p tl ih =>
    obtain ⟨k2, v⟩ := p
    simp only [List.map_cons, List.mem_cons] at h
    push_neg at h
    simp only [mapLookup]
    rw [if_neg (fun hh => h.1 hh.symm)]
    exact ih h.2

/-- Removing an absent key leaves the map unchanged. -/
theorem mapRemove_eq_of_lookup_none {m : List (Nat × StakeInfo)} {k : Nat}
    (h : mapLookup m k = none) : mapRemove m k = m := by
  induction m with
  | nil => rfl
  | cons p tl ih =>
    obtain ⟨k2, v⟩ := p
    simp only [mapLookup] at h
    by_cases hk : k2 = k
    · rw [if_pos hk] at h
      exact absurd h (by simp)
    · rw [if_neg hk] at h
      simp only [mapRemove]
      rw [if_neg hk, ih h]

/-- On a key-unique map, the sum of principals splits off a present record. -/
theorem sumAmounts_mapRemove {m : List (Nat × StakeInfo)} {k : Nat} {s : StakeInfo}
    (hnd : keysNodup m) (h : mapLookup m k = some s) :
    sumAmounts m = s.amount + sumAmounts (mapRemove m k) := by
  induction m with
  | nil => exact absurd h (by simp [mapLookup])
  | cons p tl ih =>
    obtain ⟨k2, v⟩ := p
    simp only [mapLookup] at h
    simp only [keysNodup, List.map_cons, List.nodup_cons] at hnd
    by_cases hk : k2 = k
    · rw [if_pos hk] at h
      injection h with hv
      subst hv
      have hnone : mapLookup tl k = none := by
        apply mapLookup_none_of_not_mem
        rw [← hk]
        exact hnd.1
      simp only [mapRemove, if_pos hk, sumAmounts]
      rw [mapRemove_eq_of_lookup_none hnone]
    · rw [if_neg hk] at h
      have hrec := ih hnd.2 h
      simp only [mapRemove, if_neg hk, sumAmounts]
      omega

/-- A present record's principal is at most the sum of principals. -/
theorem amount_le_sumAmounts {m : List (Nat × StakeInfo)} {k : Nat} {s : StakeInfo}
    (h : mapLookup m k = some s) : s.amount ≤ sumAmounts m := by
  induction m with
  | nil => exact absurd h (by simp [mapLookup])
  | cons p tl ih =>
    obtain ⟨k2, v⟩ := p
    simp only [mapLookup] at h
    by_cases hk : k2 = k
    · rw [if_pos hk] at h
      injection h with hv
      subst hv
      simp only [sumAmounts]
      omega
    · rw [if_neg hk] at h
      have := ih h
      simp only [sumAmounts]
      omega

/-- Looking up a removed key yields none. -/
theorem mapLookup_mapRemove_self (m : List (Nat × StakeInfo)) (k : Nat) :
    mapLookup (mapRemove m k) k = none := by
  induction m with
  | nil => rfl
  | cons p tl ih =>
    obtain ⟨k2, v⟩ := p
    simp only [mapRemove]
    by_cases hk : k2 = k
    · rw [if_pos hk]
      exact ih
    · rw [if_neg hk]
      simp only [mapLookup]
      rw [if_neg hk]
      exact ih

/-- Looking up a freshly inserted key yields its record. -/
theorem mapLookup_mapInsert_self (m : List (Nat × StakeInfo)) (k : Nat)
    (v : StakeInfo) : mapLookup (mapInsert m k v) k = some v := by
  simp [mapInsert, mapLookup]

/-- The removed key is absent from the keys of the result. -/
theorem not_mem_keys_mapRemove (m : List (Nat × StakeInfo)) (k : Nat) :
    k ∉ (mapRemove m k).map Prod.fst := by
  induction m with
  | nil => simp [mapRemove]
  | cons p tl ih =>
    obtain ⟨k2, v⟩ := p
    simp only [mapRemove]
    by_cases hk : k2 = k
    · rw [if_pos hk]
      exact ih
    · rw [if_neg hk]
      simp only [List.map_cons, List.mem_cons]
      push_neg
      exact ⟨fun hh => hk hh.symm, ih⟩

/-- Keys of the removed map come from keys of the original map. -/
theorem mem_keys_of_mem_keys_mapRemove {m : List (Nat × StakeInfo)} {k a : Nat}
    (h : a ∈ (mapRemove m k).map Prod.fst) : a ∈ m.map Prod.fst := by
  induction m with
  | nil => exact h
  | cons p tl ih =>
    obtain ⟨k2, v⟩ := p
    simp only [mapRemove] at h
    by_cases hk : k2 = k
    · rw [if_pos hk] at h
      simp only [List.map_cons, List.mem_cons]
      exact Or.inr (ih h)
    · rw [if_neg hk] at h
      simp only [List.map_cons, List.mem_cons] at h ⊢
      rcases h with h | h
      · exact Or.inl h
      · exact Or.inr (ih h)

/-- Removal preserves key uniqueness. -/
theorem keysNodup_mapRemove {m : List (Nat × StakeInfo)} (k : Nat)
    (h : keysNodup m) : keysNodup (mapRemove m k) := by
  induction m with
  | nil => exact h
  | cons p tl ih =>
    obtain ⟨k2, v⟩ := p
    simp only [keysNodup, List.map_cons, List.nodup_cons] at h
    simp only [mapRemove]
    by_cases hk : k2 = k
    · rw [if_pos hk]
      exact ih h.2
    · rw [if_neg hk]
      simp only [keysNodup, List.map_cons, List.nodup_cons]
      exact ⟨fun hm => h.1 (mem_keys_of_mem_keys_mapRemove hm), ih h.2⟩

/-- Insertion preserves key uniqueness. -/
theorem keysNodup_mapInsert {m : List (Nat × StakeInfo)} (k : Nat) (v : StakeInfo)
    (h : keysNodup m) : keysNodup (mapInsert m k v) := by
  simp only [mapInsert, keysNodup, List.map_cons, List.nodup_cons]
  exact ⟨not_mem_keys_mapRemove m k, keysNodup_mapRemove k h⟩

/-- The sum of principals after an insert. -/
theorem sumAmounts_mapInsert (m : List (Nat × StakeInfo)) (k : Nat)
    (v : StakeInfo) :
    sumAmounts (mapInsert m k v) = v.amount + sumAmounts (mapRemove m k) := rfl

/-- On the no-clamp domain, calculate_reward is the exact floor formula
principal * apr * elapsed / rewardDenom. -/
theorem calculate_reward_formula (p t0 t r : Nat) (hp : p ≤ U64MAX)
    (hr : r ≤ U64MAX) (hfit : p * r * (t - t0) / rewardDenom ≤ U64MAX) :
    calculate_reward p t0 t r = p * r * (t - t0) / rewardDenom := by
  by_cases hp0 : p = 0
  · subst hp0
    simp [calculate_reward]
  · unfold calculate_reward
    rw [if_neg hp0]
    have h1 : p * r ≤ U128MAX := by
      have hm := Nat.mul_le_mul hp hr
      have hb : U64MAX * U64MAX ≤ U128MAX := by decide
      omega
    have hs1 : satMul128 p r = p * r := by
      unfold satMul128
      exact if_pos h1
    have h2 : p * r * (t - t0) ≤ U128MAX := by
      have hmod := Nat.div_add_mod (p * r * (t - t0)) rewardDenom
      have hlt : p * r * (t - t0) % rewardDenom < rewardDenom :=
        Nat.mod_lt _ (by decide)
      have hq : rewardDenom * (p * r * (t - t0) / rewardDenom)
          ≤ rewardDenom * U64MAX :=
        Nat.mul_le_mul_left _ hfit
      have hU : rewardDenom * U64MAX + rewardDenom ≤ U128MAX := by decide
      omega
    have hs2 : satMul128 (p * r) (t - t0) = p * r * (t - t0) := by
      unfold satMul128
      exact if_pos h2
    rw [hs1, hs2, if_pos hfit]

/-- The principal written by the contract_stake record update. -/
theorem stakeUpd_amount (env : Env) (st : State) (s0 : StakeInfo) (amount : Nat) :
    (contract_stake.stakeUpd env st s0 amount).amount = satAdd64 s0.amount amount :=
  rfl

/-- unstake_helper preserves the C4 invariant. -/
theorem unstake_helper_inv {env : Env} {st : State} {a amt : Nat} {o : Out}
    (hinv : StakedInv st) (h : unstake_helper env st a amt = .ok o) :
    StakedInv o.st := by
  obtain ⟨ht, hle, hnd⟩ := hinv
  unfold unstake_helper at h
  split at h
  · exact absurd h (by simp)
  split at h
  · exact absurd h (by simp)
  rename_i s heq
  split at h
  case isFalse => exact absurd h (by simp)
  case isTrue hamt =>
    split at h
    · exact absurd h (by simp)
    rename_i tr htr
    rw [Except.ok.injEq] at h
    subst h
    have hsm := sumAmounts_mapRemove hnd heq
    have hle2 : s.amount ≤ sumAmounts st.stakes := amount_le_sumAmounts heq
    by_cases heqa : amt = s.amount
    · rw [if_pos heqa]
      refine ⟨?_, ?_, keysNodup_mapRemove a hnd⟩
      · show wsub64 st.total_staked amt = sumAmounts (mapRemove st.stakes a)
        rw [ht, wsub64_eq (by omega) (by omega)]
        omega
      · show sumAmounts (mapRemove st.stakes a) ≤ U64MAX
        omega
    · rw [if_neg heqa]
      refine ⟨?_, ?_, keysNodup_mapInsert a _ hnd⟩
      · show wsub64 st.total_staked amt =
          sumAmounts (mapInsert st.stakes a
            ⟨s.amount - amt, s.timestamp, s.unbonding, s.slashed, s.pending_rewards⟩)
        rw [sumAmounts_mapInsert, ht, wsub64_eq (by omega) (by omega)]
        show sumAmounts st.stakes - amt = s.amount - amt + sumAmounts (mapRemove st.stakes a)
        omega
      · show sumAmounts (mapInsert st.stakes a
            ⟨s.amount - amt, s.timestamp, s.unbonding, s.slashed, s.pending_rewards⟩) ≤ U64MAX
        rw [sumAmounts_mapInsert]
        show s.amount - amt + sumAmounts (mapRemove st.stakes a) ≤ U64MAX
        omega

/-- claim_rewards_helper preserves the C4 invariant. -/
theorem claim_rewards_helper_inv {env : Env} {st : State} {a : Nat} {o : Out}
    (hinv : StakedInv st) (h : claim_rewards_helper env st a = .ok o) :
    StakedInv o.st := by
  obtain ⟨ht, hle, hnd⟩ := hinv
  unfold claim_rewards_helper at h
  split at h
  · exact absurd h (by simp)
  split at h
  · exact absurd h (by simp)
  rename_i s heq
  split at h
  case isTrue => exact absurd h (by simp)
  case isFalse =>
    split at h
    case isFalse => exact absurd h (by simp)
    case isTrue =>
      split at h
      case isFalse => exact absurd h (by simp)
      case isTrue =>
        split at h
        · exact absurd h (by simp)
        rename_i tr htr
        rw [Except.ok.injEq] at h
        subst h
        have hsm := sumAmounts_mapRemove hnd heq
        refine ⟨?_, ?_, keysNodup_mapInsert a _ hnd⟩
        · show st.total_staked =
            sumAmounts (mapInsert st.stakes a { s with pending_rewards := 0, timestamp := env.now })
          rw [sumAmounts_mapInsert, ht]
          show sumAmounts st.stakes = s.amount + sumAmounts (mapRemove st.stakes a)
          omega
        · show sumAmounts (mapInsert st.stakes a
              { s with pending_rewards := 0, timestamp := env.now }) ≤ U64MAX
          rw [sumAmounts_mapInsert]
          show s.amount + sumAmounts (mapRemove st.stakes a) ≤ U64MAX
          omega

/-- contract_unstake (direct queued unstake) preserves the C4 invariant. -/
theorem contract_unstake_inv {env : Env} {st : State} {sender : Addr} {amt : Nat}
    {o : Out} (hinv : StakedInv st) (h : contract_unstake env st sender amt = .ok o) :
    StakedInv o.st := by
  obtain ⟨ht, hle, hnd⟩ := hinv
  unfold contract_unstake at h
  split at h
  · exact absurd h (by simp)
  rename_i a hacc
  split at h
  · exact absurd h (by simp)
  split at h
  · exact absurd h (by simp)
  rename_i s heq
  split at h
  case isTrue => exact absurd h (by simp)
  case isFalse =>
    split at h
    case isFalse => exact absurd h (by simp)
    case isTrue hamt =>
      rw [Except.ok.injEq] at h
      subst h
      have hsm := sumAmounts_mapRemove hnd heq
      have hle2 : s.amount ≤ sumAmounts st.stakes := amount_le_sumAmounts heq
      refine ⟨?_, ?_, ?_⟩
      · show wsub64 st.total_staked amt =
          sumAmounts (mapInsert st.stakes a
            { s with
              amount := s.amount - amt
              unbonding := s.unbonding ++ [⟨amt, wadd64 env.now st.unbonding_period⟩] })
        rw [sumAmounts_mapInsert, ht, wsub64_eq (by omega) (by omega)]
        show sumAmounts st.stakes - amt = s.amount - amt + sumAmounts (mapRemove st.stakes a)
        omega
      · show sumAmounts (mapInsert st.stakes a
            { s with
              amount := s.amount - amt
              unbonding := s.unbonding ++ [⟨amt, wadd64 env.now st.unbonding_period⟩] }) ≤ U64MAX
        rw [sumAmounts_mapInsert]
        show s.amount - amt + sumAmounts (mapRemove st.stakes a) ≤ U64MAX
        omega
      · show keysNodup (mapInsert st.stakes a _)
        exact keysNodup_mapInsert a _ hnd

/-- contract_stake preserves the C4 invariant on non-saturating deposits. -/
theorem contract_stake_inv {env : Env} {st : State} {sender frm : Addr}
    {amt : Nat} {o : Out} (hinv : StakedInv st)
    (hns : sumAmounts st.stakes + amt ≤ U64MAX)
    (h : contract_stake env st sender frm amt = .ok o) :
    StakedInv o.st := by
  obtain ⟨ht, hle, hnd⟩ := hinv
  unfold contract_stake at h
  split at h
  case isFalse => exact absurd h (by simp)
  case isTrue =>
    split at h
    · exact absurd h (by simp)
    rename_i a hacc
    split at h
    case isTrue => exact absurd h (by simp)
    case isFalse =>
      split at h
      case isFalse => exact absurd h (by simp)
      case isTrue hamt =>
        rw [Except.ok.injEq] at h
        subst h
        cases hprev : mapLookup st.stakes a with
        | none =>
          have hrm := mapRemove_eq_of_lookup_none hprev
          refine ⟨?_, ?_, ?_⟩
          · show satAdd64 st.total_staked amt =
              sumAmounts (mapInsert st.stakes a
                (contract_stake.stakeUpd env st ⟨0, env.now, [], false, 0⟩ amt))
            rw [sumAmounts_mapInsert, stakeUpd_amount, hrm, satAdd64_eq (by omega), ht]
            show sumAmounts st.stakes + amt = satAdd64 0 amt + sumAmounts st.stakes
            rw [satAdd64_eq (by omega)]
            omega
          · show sumAmounts (mapInsert st.stakes a
                (contract_stake.stakeUpd env st ⟨0, env.now, [], false, 0⟩ amt)) ≤ U64MAX
            rw [sumAmounts_mapInsert, stakeUpd_amount, hrm]
            show satAdd64 0 amt + sumAmounts st.stakes ≤ U64MAX
            rw [satAdd64_eq (by omega)]
            omega
          · show keysNodup (mapInsert st.stakes a _)
            exact keysNodup_mapInsert a _ hnd
        | some s0 =>
          have hsm := sumAmounts_mapRemove hnd hprev
          have hle2 : s0.amount ≤ sumAmounts st.stakes := amount_le_sumAmounts hprev
          refine ⟨?_, ?_, ?_⟩
          · show satAdd64 st.total_staked amt =
              sumAmounts (mapInsert st.stakes a
                (contract_stake.stakeUpd env st s0 amt))
            rw [sumAmounts_mapInsert, stakeUpd_amount, satAdd64_eq (by omega), ht]
            show sumAmounts st.stakes + amt =
              satAdd64 s0.amount amt + sumAmounts (mapRemove st.stakes a)
            rw [satAdd64_eq (by omega)]
            omega
          · show sumAmounts (mapInsert st.stakes a
                (contract_stake.stakeUpd env st s0 amt)) ≤ U64MAX
            rw [sumAmounts_mapInsert, stakeUpd_amount]
            show satAdd64 s0.amount amt + sumAmounts (mapRemove st.stakes a) ≤ U64MAX
            rw [satAdd64_eq (by omega)]
            omega
          · show keysNodup (mapInsert st.stakes a _)
            exact keysNodup_mapInsert a _ hnd

/-- contract_claim_rewards preserves the C4 invariant. -/
theorem contract_claim_rewards_inv {env : Env} {st : State} {sender : Addr}
    {o : Out} (hinv : StakedInv st) (h : contract_claim_rewards env st sender = .ok o) :
    StakedInv o.st := by
  unfold contract_claim_rewards at h
  split at h
  · exact absurd h (by simp)
  exact claim_rewards_helper_inv hinv h

/-- contract_complete_unstake preserves the C4 invariant. -/
theorem contract_complete_unstake_inv {env : Env} {st : State} {sender : Addr}
    {o : Out} (hinv : StakedInv st)
    (h : contract_complete_unstake env st sender = .ok o) : StakedInv o.st := by
  obtain ⟨ht, hle, hnd⟩ := hinv
  unfold contract_complete_unstake at h
  split at h
  · exact absurd h (by simp)
  rename_i a hacc
  split at h
  · exact absurd h (by simp)
  rename_i s heq
  split at h
  case isTrue => exact absurd h (by simp)
  case isFalse =>
    split at h
    case isFalse => exact absurd h (by simp)
    case isTrue =>
      split at h
      · exact absurd h (by simp)
      rename_i tr htr
      rw [Except.ok.injEq] at h
      subst h
      have hsm := sumAmounts_mapRemove hnd heq
      refine ⟨?_, ?_, ?_⟩
      · show st.total_staked =
          sumAmounts (mapInsert st.stakes a
            { s with unbonding :=
                s.unbonding.filter (fun u => decide (env.now < u.unlock_time)) })
        rw [sumAmounts_mapInsert, ht]
        show sumAmounts st.stakes = s.amount + sumAmounts (mapRemove st.stakes a)
        omega
      · show sumAmounts (mapInsert st.stakes a
            { s with unbonding :=
                s.unbonding.filter (fun u => decide (env.now < u.unlock_time)) }) ≤ U64MAX
        rw [sumAmounts_mapInsert]
        show s.amount + sumAmounts (mapRemove st.stakes a) ≤ U64MAX
        omega
      · show keysNodup (mapInsert st.stakes a _)
        exact keysNodup_mapInsert a _ hnd

/-- contract_slash preserves the C4 invariant. -/
theorem contract_slash_inv {st : State} {sender : Addr} {staker : Nat} {o : Out}
    (hinv : StakedInv st) (h : contract_slash st sender staker = .ok o) :
    StakedInv o.st := by
  obtain ⟨ht, hle, hnd⟩ := hinv
  unfold contract_slash at h
  split at h
  case isFalse => exact absurd h (by simp)
  case isTrue =>
    split at h
    · exact absurd h (by simp)
    rename_i s heq
    split at h
    case isTrue => exact absurd h (by simp)
    case isFalse =>
      rw [Except.ok.injEq] at h
      subst h
      have hsm := sumAmounts_mapRemove hnd heq
      refine ⟨?_, ?_, ?_⟩
      · show st.total_staked =
          sumAmounts (mapInsert st.stakes staker { s with slashed := true })
        rw [sumAmounts_mapInsert, ht]
        show sumAmounts st.stakes = s.amount + sumAmounts (mapRemove st.stakes staker)
        omega
      · show sumAmounts (mapInsert st.stakes staker { s with slashed := true }) ≤ U64MAX
        rw [sumAmounts_mapInsert]
        show s.amount + sumAmounts (mapRemove st.stakes staker) ≤ U64MAX
        omega
      · show keysNodup (mapInsert st.stakes staker _)
        exact keysNodup_mapInsert staker _ hnd

/-- contract_fund_rewards preserves the C4 invariant. -/
theorem contract_fund_rewards_inv {env : Env} {st : State} {sender : Addr}
    {amt : Nat} {o : Out} (hinv : StakedInv st)
    (h : contract_fund_rewards env st sender amt = .ok o) : StakedInv o.st := by
  unfold contract_fund_rewards at h
  split at h
  case isFalse => exact absurd h (by simp)
  case isTrue =>
    split at h
    · exact absurd h (by simp)
    rw [Except.ok.injEq] at h
    subst h
    exact hinv

/-- contract_set_paused preserves the C4 invariant. -/
theorem contract_set_paused_inv {env : Env} {st : State} {sender : Addr}
    {p : Bool} {o : Out} (hinv : StakedInv st)
    (h : contract_set_paused env st sender p = .ok o) : StakedInv o.st := by
  unfold contract_set_paused at h
  split at h
  case isFalse => exact absurd h (by simp)
  case isTrue =>
    rw [Except.ok.injEq] at h
    subst h
    exact hinv

/-- update_apr preserves the C4 invariant. -/
theorem update_apr_inv {env : Env} {st : State} {sender : Addr} {na : Nat}
    {o : Out} (hinv : StakedInv st) (h : update_apr env st sender na = .ok o) :
    StakedInv o.st := by
  unfold update_apr at h
  split at h
  case isFalse => exact absurd h (by simp)
  case isTrue =>
    rw [Except.ok.injEq] at h
    subst h
    exact hinv

/-- contract_permit preserves the C4 invariant. -/
theorem contract_permit_inv {env : Env} {sigOk : Bool} {st : State} {signer : Nat}
    {msg : PermitMessage} {o : Out} (hinv : StakedInv st)
    (h : contract_permit env sigOk st signer msg = .ok o) : StakedInv o.st := by
  have hbump : StakedInv (bumpNonce st signer) := hinv
  unfold contract_permit at h
  split at h
  · exact absurd h (by simp)
  split at h
  case isFalse => exact absurd h (by simp)
  split at h
  case isFalse => exact absurd h (by simp)
  split at h
  case isFalse => exact absurd h (by simp)
  split at h
  case isFalse => exact absurd h (by simp)
  split at h
  case isTrue =>
    split at h
    · exact absurd h (by simp)
    rename_i amt
    split at h
    · exact absurd h (by simp)
    rename_i o2 h2
    rw [Except.ok.injEq] at h
    subst h
    show StakedInv o2.st
    exact unstake_helper_inv hbump h2
  case isFalse =>
    split at h
    case isFalse => exact absurd h (by simp)
    case isTrue =>
      split at h
      · exact absurd h (by simp)
      rename_i o2 h2
      rw [Except.ok.injEq] at h
      subst h
      show StakedInv o2.st
      exact claim_rewards_helper_inv hbump h2

/-- Every successful operation preserves the C4 invariant, provided a deposit
never saturates the 64-bit running total. -/
theorem applyOp_inv {env : Env} {op : Op} {st : State} {o : Out}
    (hinv : StakedInv st) (hns : noSatStake op st) (h : applyOp env op st = .ok o) :
    StakedInv o.st := by
  cases op with
  | stake sender frm amount => exact contract_stake_inv hinv hns h
  | unstake sender amount => exact contract_unstake_inv hinv h
  | permit signer msg sigOk => exact contract_permit_inv hinv h
  | claimRewards sender => exact contract_claim_rewards_inv hinv h
  | completeUnstake sender => exact contract_complete_unstake_inv hinv h
  | slash sender staker => exact contract_slash_inv hinv h
  | fundRewards sender amount => exact contract_fund_rewards_inv hinv h
  | setPaused sender p => exact contract_set_paused_inv hinv h
  | updateApr sender a => exact update_apr_inv hinv h

/-- Claim C4 (amended): in every state reachable from init by a sequence of
successful operations none of whose deposits saturates the 64-bit running
total (Σ principal + deposit ≤ 2^64 - 1 at each stake step), total_staked
equals the sum of the principal (amount) fields over all stake records.
Without the no-saturation proviso the equality can fail, see the
counterexample. -/
theorem c4_total_staked_eq_sum (s : State) (h : ReachableNS s) :
    s.total_staked = sumAmounts s.stakes := by
  have hinv : StakedInv s := by
    induction h with
    | init admin token_address unbonding_period slashing_rate =>
      exact ⟨rfl, by simp [sumAmounts, U64MAX, contract_init], by simp [keysNodup, contract_init]⟩
    | step hr hns happ ih => exact applyOp_inv ih hns happ
  exact hinv.1

/-- Witness for C4: a one-deposit no-saturation trace, with the invariant
instantiated through the theorem. -/
theorem c4_total_staked_eq_sum_witness :
    c4St1.total_staked = sumAmounts c4St1.stakes := by
  have h1 : applyOp env0 (Op.stake (Addr.contract 7) (Addr.acct 1) U64MAX)
      (contract_init 0 7 10 500) = .ok c4Out1 := rfl
  have hr : ReachableNS c4St1 :=
    ReachableNS.step (ReachableNS.init 0 7 10 500) (by exact le_refl U64MAX) h1
  exact c4_total_staked_eq_sum c4St1 hr

/-- Counterexample for C4 as stated: after two deposits of 2^64 - 1 from two
accounts (both succeed), the saturated total_staked is 2^64 - 1 while the
sum of principals is 2 * (2^64 - 1). -/
theorem c4_counterexample :
    Reachable c4St2 ∧ c4St2.total_staked ≠ sumAmounts c4St2.stakes := by
  constructor
  · have h1 : applyOp env0 (Op.stake (Addr.contract 7) (Addr.acct 1) U64MAX)
        (contract_init 0 7 10 500) = .ok c4Out1 := rfl
    have h2 : applyOp env0 (Op.stake (Addr.contract 7) (Addr.acct 2) U64MAX)
        c4St1 = .ok c4Out2 := rfl
    exact Reachable.step (Reachable.step (Reachable.init 0 7 10 500) h1) h2
  · decide

/-- Claim C3 (the code side): settleMatured on a slashed account with a
matured entry does not apply the 5% deduction and pay out; it is rejected
up front with AlreadySlashed, because the slashing-deduction branch sits
behind an ensure that no slashed record can pass. -/
theorem c3_slashed_settle_rejected :
    (mapLookup c3St.stakes 1).map StakeInfo.slashed = some true ∧
    c3St.slashing_rate = 500 ∧
    (∃ u, mapLookup c3St.stakes 1 = some u ∧
      u.unbonding = [⟨1000, 10⟩] ∧ (10 : Nat) ≤ c3Env.now) ∧
    contract_complete_unstake c3Env c3St (Addr.acct 1) = .error .AlreadySlashed := by
  refine ⟨rfl, rfl, ⟨⟨0, 0, [⟨1000, 10⟩], true, 0⟩, rfl, rfl, by decide⟩, rfl⟩

/-- Claim C6 (amended): for fixed principal, rate and checkpoint, the reward
is monotone non-decreasing in the current time provided the exact quotient
at the larger elapsed time fits in u64 (otherwise the final u64 conversion
clamps the overflowing value to 0, which can decrease the result). -/
theorem c6_reward_monotone (p t0 r t1 t2 : Nat) (hp : p ≤ U64MAX)
    (hr : r ≤ U64MAX) (h12 : t1 ≤ t2)
    (hfit : p * r * (t2 - t0) / rewardDenom ≤ U64MAX) :
    calculate_reward p t0 t1 r ≤ calculate_reward p t0 t2 r := by
  have he : t1 - t0 ≤ t2 - t0 := Nat.sub_le_sub_right h12 t0
  have hm : p * r * (t1 - t0) ≤ p * r * (t2 - t0) := Nat.mul_le_mul_left _ he
  have hfit1 : p * r * (t1 - t0) / rewardDenom ≤ U64MAX :=
    le_trans (Nat.div_le_div_right hm) hfit
  rw [calculate_reward_formula p t0 t1 r hp hr hfit1,
      calculate_reward_formula p t0 t2 r hp hr hfit]
  exact Nat.div_le_div_right hm

/-- Witness for C6: a concrete monotone pair inside the no-clamp domain. -/
theorem c6_reward_monotone_witness :
    calculate_reward 1000000 0 31536000 139 ≤ calculate_reward 1000000 0 63072000 139 :=
  c6_reward_monotone 1000000 0 139 31536000 63072000 (by decide) (by decide)
    (by decide) (by decide)

/-- Counterexample for C6 as stated: with principal 10^10, apr 10^10 and
checkpoint 0, the reward at elapsed 10^10 is a large positive value, but at
the larger elapsed 10^11 the exact quotient exceeds u64::MAX, so the
try_into fallback returns 0 and the reward decreases. -/
theorem c6_counterexample :
    (10000000000 : Nat) ≤ 100000000000 ∧
    calculate_reward 10000000000 0 100000000000 10000000000 <
      calculate_reward 10000000000 0 10000000000 10000000000 := by
  constructor
  · decide
  · decide

/-- Claim C7: calculate_reward computes the exact floor formula
principal * apr * elapsed / (365*24*3600*10000) whenever the quotient fits
in u64 (the u64 ranges of the inputs keep the 128-bit intermediates from
saturating there), and in particular maps principal 1_000_000, apr 139 and
one year of elapsed seconds to exactly 13_900. -/
theorem c7_reward_formula :
    (∀ p t0 t r, p ≤ U64MAX → r ≤ U64MAX →
        p * r * (t - t0) / rewardDenom ≤ U64MAX →
        calculate_reward p t0 t r = p * r * (t - t0) / rewardDenom) ∧
    calculate_reward 1000000 0 31536000 139 = 13900 :=
  ⟨calculate_reward_formula, by decide⟩

/-- Witness for C7: the general formula instantiated at the spec's example. -/
theorem c7_reward_formula_witness :
    calculate_reward 1000000 0 31536000 139 = 1000000 * 139 * (31536000 - 0) / rewardDenom :=
  c7_reward_formula.1 1000000 0 31536000 139 (by decide) (by decide) (by decide)

/-- Claim C5: an unpaused permit call whose message nonce differs from the
signer's stored expected nonce (0 when no registry entry exists — the
nonces model defaults to 0) fails with NonceMismatch, and under the chain's
whole-call rollback the stored nonce after the call equals the one before
it; this holds whatever the signature verdict and the rest of the message. -/
theorem c5_nonce_mismatch_fails (env : Env) (sigOk : Bool) (st : State)
    (signer : Nat) (msg : PermitMessage) (hp : st.paused = false)
    (hn : msg.nonce ≠ st.nonces signer) :
    contract_permit env sigOk st signer msg = .error .NonceMismatch ∧
    (commitState st (contract_permit env sigOk st signer msg)).nonces signer =
      st.nonces signer := by
  have h1 : contract_permit env sigOk st signer msg = .error .NonceMismatch := by
    unfold contract_permit
    rw [hp]
    simp only [Bool.false_eq_true, if_false]
    rw [if_neg hn]
  refine ⟨h1, ?_⟩
  rw [h1]
  rfl

/-- Witness for C5: nonce 5 against a fresh registry expecting 0. -/
theorem c5_nonce_mismatch_fails_witness :
    contract_permit env0 true (mkState [] 0) 1 ⟨9, 5, 100, "unstake", some 1⟩ =
      .error .NonceMismatch ∧
    (commitState (mkState [] 0)
      (contract_permit env0 true (mkState [] 0) 1 ⟨9, 5, 100, "unstake", some 1⟩)).nonces 1 =
      (mkState [] 0).nonces 1 :=
  c5_nonce_mismatch_fails env0 true (mkState [] 0) 1 ⟨9, 5, 100, "unstake", some 1⟩
    rfl (by decide)

/-- Claim C9: an unpaused permit call that passes the nonce, contract
address, expiry and signature checks but names an entrypoint other than
unstake or claimRewards fails with WrongEntryPoint, and no NonceEvent (nor
any other event) survives the rolled-back call. -/
theorem c9_wrong_entrypoint_fails (env : Env) (st : State) (signer : Nat)
    (msg : PermitMessage) (hp : st.paused = false)
    (hn : msg.nonce = st.nonces signer)
    (hc : msg.contract_address = env.self_addr)
    (ht : env.slot_time < msg.timestamp)
    (h1 : msg.entry_point ≠ "unstake")
    (h2 : msg.entry_point ≠ "claimRewards") :
    contract_permit env true st signer msg = .error .WrongEntryPoint ∧
    committedEvents (contract_permit env true st signer msg) = [] := by
  have hmain : contract_permit env true st signer msg = .error .WrongEntryPoint := by
    unfold contract_permit
    rw [hp]
    simp only [Bool.false_eq_true, if_false]
    rw [if_pos hn, if_pos hc, if_pos ht, if_pos trivial, if_neg h1, if_neg h2]
  refine ⟨hmain, ?_⟩
  rw [hmain]
  rfl

/-- Witness for C9: a valid permit naming the unsupported entrypoint stake. -/
theorem c9_wrong_entrypoint_fails_witness :
    contract_permit env0 true (mkState [] 0) 1 ⟨9, 0, 100, "stake", none⟩ =
      .error .WrongEntryPoint ∧
    committedEvents
      (contract_permit env0 true (mkState [] 0) 1 ⟨9, 0, 100, "stake", none⟩) = [] :=
  c9_wrong_entrypoint_fails env0 (mkState [] 0) 1 ⟨9, 0, 100, "stake", none⟩
    rfl rfl rfl (by decide) (by decide) (by decide)

/-- Claim C8: when an unpaused, unslashed account's total claimable rewards
(stored pending_rewards plus the accrual since the checkpoint, with the
source's saturating addition) is positive but exceeds rewards_pool,
claimRewards fails with InsufficientRewardsPool and, by whole-call
rollback, the state — pending_rewards included — is unchanged. -/
theorem c8_insufficient_pool_fails (env : Env) (st : State) (a : Nat)
    (s : StakeInfo) (hp : st.paused = false)
    (hs : mapLookup st.stakes a = some s) (hsl : s.slashed = false)
    (hpos : 0 < satAdd64 s.pending_rewards
        (calculate_reward s.amount s.timestamp env.now st.apr))
    (hgt : st.rewards_pool < satAdd64 s.pending_rewards
        (calculate_reward s.amount s.timestamp env.now st.apr)) :
    contract_claim_rewards env st (Addr.acct a) = .error .InsufficientRewardsPool ∧
    commitState st (contract_claim_rewards env st (Addr.acct a)) = st := by
  have hmain : contract_claim_rewards env st (Addr.acct a) =
      .error .InsufficientRewardsPool := by
    unfold contract_claim_rewards only_account claim_rewards_helper
    rw [hp]
    simp only [Bool.false_eq_true, if_false]
    rw [hs]
    simp only [hsl, Bool.false_eq_true, if_false]
    rw [if_pos hpos, if_neg (by omega)]
  refine ⟨hmain, ?_⟩
  rw [hmain]
  rfl

/-- Witness for C8: pending 5 accrued on a zero principal against an empty
rewards pool. -/
theorem c8_insufficient_pool_fails_witness :
    contract_claim_rewards env0 (mkState [(1, ⟨0, 0, [], false, 5⟩)] 0)
      (Addr.acct 1) = .error .InsufficientRewardsPool ∧
    commitState (mkState [(1, ⟨0, 0, [], false, 5⟩)] 0)
      (contract_claim_rewards env0 (mkState [(1, ⟨0, 0, [], false, 5⟩)] 0)
        (Addr.acct 1)) = mkState [(1, ⟨0, 0, [], false, 5⟩)] 0 :=
  c8_insufficient_pool_fails env0 (mkState [(1, ⟨0, 0, [], false, 5⟩)] 0) 1
    ⟨0, 0, [], false, 5⟩ rfl rfl rfl (by decide) (by decide)

/-- Claim C2 (amended): on a slashed account (unpaused state), the direct
RequestUnstake and ClaimRewards both fail with AlreadySlashed — whatever
the requested amount — and by whole-call rollback leave the state
unchanged.  The permit-routed unstake (unstake_helper) performs no slashed
check and is not blocked; see the counterexample. -/
theorem c2_direct_and_claim_blocked (env : Env) (st : State) (a amt : Nat)
    (s : StakeInfo) (hp : st.paused = false)
    (hs : mapLookup st.stakes a = some s) (hsl : s.slashed = true) :
    contract_unstake env st (Addr.acct a) amt = .error .AlreadySlashed ∧
    commitState st (contract_unstake env st (Addr.acct a) amt) = st ∧
    contract_claim_rewards env st (Addr.acct a) = .error .AlreadySlashed ∧
    commitState st (contract_claim_rewards env st (Addr.acct a)) = st := by
  have h1 : contract_unstake env st (Addr.acct a) amt = .error .AlreadySlashed := by
    unfold contract_unstake only_account
    simp only [hp, Bool.false_eq_true, if_false, hs]
    simp [hsl]
  have h2 : contract_claim_rewards env st (Addr.acct a) = .error .AlreadySlashed := by
    unfold contract_claim_rewards only_account claim_rewards_helper
    simp only [hp, Bool.false_eq_true, if_false, hs]
    simp [hsl]
  exact ⟨h1, by rw [h1]; rfl, h2, by rw [h2]; rfl⟩

/-- Witness for C2: the two blocked calls on a concrete slashed account. -/
theorem c2_direct_and_claim_blocked_witness :
    contract_unstake env0 c2St (Addr.acct 1) 40 = .error .AlreadySlashed ∧
    commitState c2St (contract_unstake env0 c2St (Addr.acct 1) 40) = c2St ∧
    contract_claim_rewards env0 c2St (Addr.acct 1) = .error .AlreadySlashed ∧
    commitState c2St (contract_claim_rewards env0 c2St (Addr.acct 1)) = c2St :=
  c2_direct_and_claim_blocked env0 c2St 1 40 ⟨100, 0, [], true, 5⟩ rfl rfl rfl

/-- Counterexample for C2 as stated: on the slashed account 1, the
permit-routed unstake (ImmediateUnstakeAndSettle) does not fail with the
already-slashed error — the whole permit call succeeds, pays out 40 and
leaves principal 60. -/
theorem c2_counterexample :
    (mapLookup c2St.stakes 1).map StakeInfo.slashed = some true ∧
    (contract_permit env0 true c2St 1 ⟨9, 0, 100, "unstake", some 40⟩).map
        (fun o => (o.st.total_staked, o.transfers)) =
      .ok (60, [⟨Addr.contract 9, Addr.acct 1, 40⟩]) := by
  constructor
  · rfl
  · rfl

/-- Characterization of a successful unstake_helper call (the
ImmediateUnstakeAndSettle semantics). -/
theorem unstake_helper_ok (env : Env) (st : State) (a amt : Nat) (s : StakeInfo)
    (hp : st.paused = false) (hs : mapLookup st.stakes a = some s)
    (ha : amt ≤ s.amount)
    (hb : wadd64 amt (calculate_reward amt s.timestamp env.now st.apr) <
      env.balanceOf (Addr.contract env.self_addr)) :
    unstake_helper env st a amt =
      .ok ⟨(if amt = s.amount then
              { st with
                stakes := mapRemove st.stakes a
                total_participants := wsub64 st.total_participants 1
                total_staked := wsub64 st.total_staked amt }
            else
              { st with
                stakes := mapInsert st.stakes a
                  ⟨s.amount - amt, s.timestamp, s.unbonding, s.slashed, s.pending_rewards⟩
                total_staked := wsub64 st.total_staked amt }),
           [⟨Addr.contract env.self_addr, Addr.acct a,
             wadd64 amt (calculate_reward amt s.timestamp env.now st.apr)⟩],
           [Event.Unstaked a amt env.now
             (calculate_reward amt s.timestamp env.now st.apr)]⟩ := by
  unfold unstake_helper transfer_euroe_token
  simp only [hp, Bool.false_eq_true, if_false, hs]
  rw [if_pos ha, if_pos trivial, if_pos hb]

/-- Claim C1 (amended): a valid permit naming entrypoint unstake with payload
amount a ≤ principal performs the immediate unstake-and-settle semantics
for the signer, not the direct queued unstake: it computes the reward on a
against the record's checkpoint, deletes the record when a equals the
principal and otherwise only decrements the principal, decrements
total_staked by a, appends no unbonding entry, and transfers a + reward to
the signer within the same call (balance pre-check passing). -/
theorem c1_permit_unstake_immediate (env : Env) (st : State) (signer : Nat)
    (msg : PermitMessage) (a : Nat) (s : StakeInfo)
    (hp : st.paused = false)
    (hn : msg.nonce = st.nonces signer)
    (hc : msg.contract_address = env.self_addr)
    (ht : env.slot_time < msg.timestamp)
    (he : msg.entry_point = "unstake")
    (hpay : msg.payload = some a)
    (hs : mapLookup st.stakes signer = some s)
    (ha : a ≤ s.amount)
    (hb : wadd64 a (calculate_reward a s.timestamp env.now st.apr) <
      env.balanceOf (Addr.contract env.self_addr)) :
    ∃ st2 : State,
      contract_permit env true st signer msg =
        .ok ⟨st2,
             [⟨Addr.contract env.self_addr, Addr.acct signer,
               wadd64 a (calculate_reward a s.timestamp env.now st.apr)⟩],
             [Event.Unstaked signer a env.now
                (calculate_reward a s.timestamp env.now st.apr),
              Event.Nonce signer (st.nonces signer)]⟩ ∧
      st2.total_staked = wsub64 st.total_staked a ∧
      mapLookup st2.stakes signer =
        (if a = s.amount then none else some { s with amount := s.amount - a }) := by
  have hu := unstake_helper_ok env (bumpNonce st signer) signer a s hp hs ha hb
  unfold contract_permit
  simp only [hp, Bool.false_eq_true, if_false]
  rw [if_pos hn, if_pos hc, if_pos ht, if_pos trivial, if_pos he, hpay]
  simp only [hu]
  by_cases haEq : a = s.amount
  · rw [if_pos haEq]
    refine ⟨_, rfl, rfl, ?_⟩
    rw [if_pos haEq]
    exact mapLookup_mapRemove_self st.stakes signer
  · rw [if_neg haEq]
    refine ⟨_, rfl, rfl, ?_⟩
    rw [if_neg haEq]
    exact mapLookup_mapInsert_self st.stakes signer _

/-- Witness for C1: the amended semantics at the concrete c1St / c1Msg
input (partial unstake of 40 out of 100). -/
theorem c1_permit_unstake_immediate_witness :
    ∃ st2 : State,
      contract_permit env0 true c1St 1 c1Msg =
        .ok ⟨st2,
             [⟨Addr.contract env0.self_addr, Addr.acct 1,
               wadd64 40 (calculate_reward 40 0 env0.now c1St.apr)⟩],
             [Event.Unstaked 1 40 env0.now (calculate_reward 40 0 env0.now c1St.apr),
              Event.Nonce 1 (c1St.nonces 1)]⟩ ∧
      st2.total_staked = wsub64 c1St.total_staked 40 ∧
      mapLookup st2.stakes 1 =
        (if (40 : Nat) = 100 then none
         else some { amount := 60, timestamp := 0, unbonding := [], slashed := false,
                     pending_rewards := 0 }) :=
  c1_permit_unstake_immediate env0 c1St 1 c1Msg 40 ⟨100, 0, [], false, 0⟩
    rfl rfl rfl (by decide) rfl rfl rfl (by decide) (by decide)

/-- Counterexample for C1 as stated: at the concrete input the permit call
transfers tokens (40, contradicting "transfers no tokens in that call") and
appends no UnbondingRequest to the signer's list (which stays empty). -/
theorem c1_counterexample :
    (contract_permit env0 true c1St 1 c1Msg).toOption.map (fun o => o.transfers) =
      some [⟨Addr.contract 9, Addr.acct 1, 40⟩] ∧
    (contract_permit env0 true c1St 1 c1Msg).toOption.map
        (fun o => (mapLookup o.st.stakes 1).map StakeInfo.unbonding) =
      some (some []) ∧
    (contract_permit env0 true c1St 1 c1Msg).toOption.map (fun o => o.transfers) ≠
      some [] := by
  refine ⟨rfl, rfl, ?_⟩
  intro hcontra
  rw [show (contract_permit env0 true c1St 1 c1Msg).toOption.map (fun o => o.transfers) =
      some [⟨Addr.contract 9, Addr.acct 1, 40⟩] from rfl] at hcontra
  exact absurd hcontra (by decide)

/-- Claim C10: a valid permit-routed unstake of the entire principal deletes
the signer's whole stake record even when unbonding entries are outstanding
or pending_rewards is nonzero: afterwards no record exists for the signer,
and the single outbound transfer of the call pays exactly
principal + reward-on-principal — the outstanding UnbondingRequest amounts
and the accrued pending_rewards are discarded without being transferred. -/
theorem c10_full_permit_unstake_discards (env : Env) (st : State) (signer : Nat)
    (msg : PermitMessage) (s : StakeInfo)
    (hp : st.paused = false)
    (hn : msg.nonce = st.nonces signer)
    (hc : msg.contract_address = env.self_addr)
    (ht : env.slot_time < msg.timestamp)
    (he : msg.entry_point = "unstake")
    (hpay : msg.payload = some s.amount)
    (hs : mapLookup st.stakes signer = some s)
    (_hout : s.unbonding ≠ [] ∨ 0 < s.pending_rewards)
    (hb : wadd64 s.amount (calculate_reward s.amount s.timestamp env.now st.apr) <
      env.balanceOf (Addr.contract env.self_addr)) :
    ∃ st2 : State,
      contract_permit env true st signer msg =
        .ok ⟨st2,
             [⟨Addr.contract env.self_addr, Addr.acct signer,
               wadd64 s.amount (calculate_reward s.amount s.timestamp env.now st.apr)⟩],
             [Event.Unstaked signer s.amount env.now
                (calculate_reward s.amount s.timestamp env.now st.apr),
              Event.Nonce signer (st.nonces signer)]⟩ ∧
      mapLookup st2.stakes signer = none ∧
      st2.total_staked = wsub64 st.total_staked s.amount := by
  have hu := unstake_helper_ok env (bumpNonce st signer) signer s.amount s hp hs
    (le_refl s.amount) hb
  unfold contract_permit
  simp only [hp, Bool.false_eq_true, if_false]
  rw [if_pos hn, if_pos hc, if_pos ht, if_pos trivial, if_pos he, hpay]
  simp only [hu]
  rw [if_pos trivial]
  exact ⟨_, rfl, mapLookup_mapRemove_self st.stakes signer, rfl⟩

/-- Witness for C10: full unstake of principal 100 on a record with two
outstanding unbonding entries (30 and 20) and pending rewards 77; only 100
(plus reward 0 at elapsed 0) is transferred and the record is gone. -/
theorem c10_full_permit_unstake_discards_witness :
    ∃ st2 : State,
      contract_permit env0 true c10St 1 c10Msg =
        .ok ⟨st2,
             [⟨Addr.contract env0.self_addr, Addr.acct 1,
               wadd64 100 (calculate_reward 100 0 env0.now c10St.apr)⟩],
             [Event.Unstaked 1 100 env0.now (calculate_reward 100 0 env0.now c10St.apr),
              Event.Nonce 1 (c10St.nonces 1)]⟩ ∧
      mapLookup st2.stakes 1 = none ∧
      st2.total_staked = wsub64 c10St.total_staked 100 :=
  c10_full_permit_unstake_discards env0 c10St 1 c10Msg
    ⟨100, 0, [⟨30, 99999⟩, ⟨20, 88888⟩], false, 77⟩
    rfl rfl rfl (by decide) rfl rfl rfl (by decide) (by decide)
